import Mathlib

/-!
Verification of `src/code/audio_video_features.py` (multimodel late fusion
feature extraction pipeline) against its natural-language specification.

The Python source is shallowly embedded: numpy arrays become Lean lists or
index functions, Python floats become `ℚ` (or `ℝ` where logarithms are
involved), exceptions become `Option`/`Except`, and external collaborators
(librosa's STFT kernel, the mel filter bank, media decoders, configuration
constants) become explicit parameters.
-/

set_option autoImplicit false

namespace AVF

/-! ### Python primitives -/

/-- Python's builtin `round`: round half to even (banker's rounding),
as used by `int(round(...))` in `events_to_target`. -/
def pyRound (q : ℚ) : ℤ :=
  let f : ℤ := ⌊q⌋
  let r : ℚ := q - f
  if r < 1/2 then f
  else if 1/2 < r then f + 1
  else if f % 2 = 0 then f else f + 1

/-- Normalization of one bound of a Python/numpy slice `a[b:e]` over an axis
of length `n`: negative indices count from the end, and both bounds are
clamped into `[0, n]` (numpy basic slicing never raises for out-of-range
slice bounds). -/
def npSliceIdx (n : ℕ) (i : ℤ) : ℕ :=
  if i < 0 then (max 0 ((n : ℤ) + i)).toNat else min i.toNat n

/-! ### Label Rasterizer: `labels_to_target`

`isnan(label)` in the source tests the NaN sentinel used by the metadata
reader for "not annotated"; we model a possibly-missing label as
`Option String` (`none` = the NaN sentinel).  `lb_to_idx` is the external
configuration's label-to-index dictionary, modelled as a partial map;
a Python dictionary lookup `lb_to_idx[label]` on an absent key raises
`KeyError`, modelled by returning `none` from the whole call.  Writing
`target[classes_id] = 1` with `classes_id` out of range would raise
`IndexError`, also modelled by `none`. -/

/-- One iteration of the `for label in labels` loop of `labels_to_target`,
acting on the target vector represented as a function `ℕ → Bool`. -/
def applyLabel (classes_num : ℕ) (lb_to_idx : String → Option ℕ)
    (g : ℕ → Bool) (lab : Option String) : Option (ℕ → Bool) :=
  match lab with
  | none => some g
  | some name =>
    match lb_to_idx name with
    | none => none
    | some classes_id =>
      if classes_id < classes_num then
        some (fun c => if c = classes_id then true else g c)
      else none

/-- The loop of `labels_to_target` over the label list. -/
def labelsLoop (classes_num : ℕ) (lb_to_idx : String → Option ℕ)
    (g : ℕ → Bool) : List (Option String) → Option (ℕ → Bool)
  | [] => some g
  | lab :: rest =>
    match applyLabel classes_num lb_to_idx g lab with
    | none => none
    | some g2 => labelsLoop classes_num lb_to_idx g2 rest

/-- `labels_to_target(labels, classes_num, lb_to_idx)`: start from
`np.zeros(classes_num, dtype=bool)`, set the mapped bit of every
non-missing label, and return the vector; `none` models the uncaught
`KeyError`/`IndexError` exceptions. -/
def labels_to_target (labels : List (Option String)) (classes_num : ℕ)
    (lb_to_idx : String → Option ℕ) : Option (List Bool) :=
  (labelsLoop classes_num lb_to_idx (fun _ => false) labels).map
    (fun g => (List.range classes_num).map g)

/-! ### Label Rasterizer: `events_to_target` -/

/-- A strong-label event row from the metadata table: `event_dict['event']`
may be the NaN sentinel (`none`), onset/offset are seconds. -/
structure Event where
  event : Option String
  onset : ℚ
  offset : ℚ

/-- `onset_frame = int(round(event_dict['onset'] * frames_per_second))`. -/
def onsetFrame (fps : ℚ) (ev : Event) : ℤ := pyRound (ev.onset * fps)

/-- `offset_frame = int(round(event_dict['offset'] * frames_per_second)) + 1`. -/
def offsetFrame (fps : ℚ) (ev : Event) : ℤ := pyRound (ev.offset * fps) + 1

/-- One iteration of the `for event_dict in events` loop of
`events_to_target`, acting on the target matrix represented as a function
`ℕ → ℕ → Bool` (frame, class).  The slice assignment
`target[onset_frame : offset_frame, class_id] = 1` uses numpy slice
normalization over the first axis (length `frames_num`). -/
def applyEvent (frames_num classes_num : ℕ) (fps : ℚ)
    (lb_to_idx : String → Option ℕ) (g : ℕ → ℕ → Bool) (ev : Event) :
    Option (ℕ → ℕ → Bool) :=
  match ev.event with
  | none => some g
  | some name =>
    match lb_to_idx name with
    | none => none
    | some class_id =>
      if class_id < classes_num then
        some (fun f c =>
          if c = class_id ∧ npSliceIdx frames_num (onsetFrame fps ev) ≤ f ∧
              f < npSliceIdx frames_num (offsetFrame fps ev) then true
          else g f c)
      else none

/-- The loop of `events_to_target` over the event list. -/
def eventsLoop (frames_num classes_num : ℕ) (fps : ℚ)
    (lb_to_idx : String → Option ℕ) (g : ℕ → ℕ → Bool) :
    List Event → Option (ℕ → ℕ → Bool)
  | [] => some g
  | ev :: rest =>
    match applyEvent frames_num classes_num fps lb_to_idx g ev with
    | none => none
    | some g2 => eventsLoop frames_num classes_num fps lb_to_idx g2 rest

/-- `events_to_target(events, frames_num, classes_num, frames_per_second,
lb_to_idx)`: start from `np.zeros((frames_num, classes_num), dtype=bool)`
and perform the slice assignments; `none` models the uncaught
`KeyError`/`IndexError` exceptions. -/
def events_to_target (events : List Event) (frames_num classes_num : ℕ)
    (fps : ℚ) (lb_to_idx : String → Option ℕ) :
    Option (List (List Bool)) :=
  (eventsLoop frames_num classes_num fps lb_to_idx (fun _ _ => false)
      events).map
    (fun g => (List.range frames_num).map
      (fun f => (List.range classes_num).map (fun c => g f c)))

/-- A label is processable without an exception: either it is the missing
sentinel, or the vocabulary maps it to an index inside the target vector. -/
def labelOk (lb_to_idx : String → Option ℕ) (classes_num : ℕ) :
    Option String → Bool
  | none => true
  | some name =>
    match lb_to_idx name with
    | none => false
    | some classes_id => classes_id < classes_num

/-- An event's name is processable without an exception. -/
def eventNameOk (lb_to_idx : String → Option ℕ) (classes_num : ℕ)
    (ev : Event) : Bool :=
  labelOk lb_to_idx classes_num ev.event

/-- The cell `(f, c)` is covered by event `ev` in the slice assignment
of `events_to_target` (after numpy slice normalization). -/
def coverB (frames_num : ℕ) (fps : ℚ) (lb_to_idx : String → Option ℕ)
    (ev : Event) (f c : ℕ) : Bool :=
  match ev.event with
  | none => false
  | some name =>
    match lb_to_idx name with
    | none => false
    | some class_id =>
      decide (c = class_id) &&
      decide (npSliceIdx frames_num (onsetFrame fps ev) ≤ f) &&
      decide (f < npSliceIdx frames_num (offsetFrame fps ev))

/-! ### Video Feature Transform: `VideoFeatureExtractor.video3d_frames`

A numpy ndarray is modelled as a shape together with an index function
(`ℚ`-valued pixels).  A decoded raw frame is a matrix of BGR triples; a
frame index that cannot be decoded (`cap.read()` returning `ret=False`,
e.g. seeking at or past the end of the stream) yields `none`, and the
subsequent `cv2.resize(None, ...)` raises — modelled by aborting. -/

/-- A numpy ndarray with rational entries: a shape and an index function. -/
structure NDArray where
  shape : List ℕ
  data : List ℕ → ℚ

instance : Inhabited NDArray := ⟨⟨[], fun _ => 0⟩⟩

/-- A raw decoded video frame: rows of BGR pixel triples. -/
def RawFrame := List (List (ℚ × ℚ × ℚ))

/-- The video decoder handle (`cv2.VideoCapture`): a reported total frame
count (`CAP_PROP_FRAME_COUNT`) and a per-index decode function. -/
structure PyVideo where
  nframe : ℕ
  read : ℕ → Option RawFrame

/-- `numpy.transpose(axes)`: defined only when `axes` is a permutation of
`range(ndim)`; a repeated axis or an axis-count mismatch raises
`ValueError` (modelled by `none`). -/
def npTranspose (a : NDArray) (axes : List ℕ) : Option NDArray :=
  if axes.length = a.shape.length ∧ axes.Nodup ∧ ∀ x ∈ axes, x < a.shape.length
  then some ⟨axes.map (fun i => a.shape.getD i 0),
    fun idx => a.data ((List.range a.shape.length).map
      (fun j => idx.getD (axes.indexOf j) 0))⟩
  else none

/-- `cv2.resize(frame, (height, width), interpolation=cv2.INTER_CUBIC)`:
`dsize = (height, width)` produces a `width × height` matrix.  The bicubic
interpolation kernel itself is an external detail of OpenCV; the pixel
values are modelled by index-scaled sampling, the output dimensions are
modelled exactly. -/
def cvResize (height width : ℕ) (frame : RawFrame) : RawFrame :=
  (List.range width).map (fun i =>
    (List.range height).map (fun j =>
      ((frame.getD (i * frame.length / width) []).getD
        (j * (frame.headD []).length / height) (0, 0, 0))))

/-- `cv2.cvtColor(frame, cv2.COLOR_BGR2GRAY)` weights for one BGR pixel. -/
def cvtGray (p : ℚ × ℚ × ℚ) : ℚ :=
  (114 / 1000) * p.1 + (587 / 1000) * p.2.1 + (299 / 1000) * p.2.2

/-- `np.array(framearray)` for a list of colour frames: a
`(depth, width, height, 3)` ndarray; channel index selects from the BGR
triple. -/
def stackColor (width height : ℕ) (raw : List RawFrame) : NDArray :=
  ⟨[raw.length, width, height, 3],
   fun idx =>
     let p := (((raw.getD (idx.getD 0 0) []).getD (idx.getD 1 0) []).getD
       (idx.getD 2 0) (0, 0, 0))
     match idx.getD 3 0 with
     | 0 => p.1
     | 1 => p.2.1
     | _ => p.2.2⟩

/-- `np.array(framearray)` for a list of grayscale frames: a
`(depth, width, height)` ndarray. -/
def stackGray (width height : ℕ) (raw : List (List (List ℚ))) : NDArray :=
  ⟨[raw.length, width, height],
   fun idx => ((raw.getD (idx.getD 0 0) []).getD (idx.getD 1 0) []).getD
     (idx.getD 2 0) 0⟩

/-- The frame indices selected by `video3d_frames`: with `skip=True`,
`x * nframe / depth` (a float position truncated by the decoder seek) for
`x` in `range(depth)`; otherwise `x` itself. -/
def selectedIdxs (skip : Bool) (nframe depth : ℕ) : List ℕ :=
  (List.range depth).map (fun x => if skip then x * nframe / depth else x)

/-- Decode every selected frame; the first failed `cap.read()` aborts (the
following `cv2.resize` raises on a `None` frame). -/
def readSelected (v : PyVideo) : List ℕ → Option (List RawFrame)
  | [] => some []
  | i :: rest =>
    match v.read i with
    | none => none
    | some fr =>
      match readSelected v rest with
      | none => none
      | some frs => some (fr :: frs)

/-- `video3d_frames(filename, width, height, depth, color, skip)`, run to
completion.  The first component records whether `cap.release()` was
executed: in the source it stands *after* the decode/resize loop and is
not protected by `try/finally`, so an exception inside the loop skips it;
the final `np.array(...).transpose(...)` runs after the release.  The
second component is the returned tensor (`none` = an uncaught exception).
-/
def video3d_framesRun (v : PyVideo) (width height depth : ℕ)
    (color skip : Bool) : Bool × Option NDArray :=
  match readSelected v (selectedIdxs skip v.nframe depth) with
  | none => (false, none)
  | some raw =>
    let resized := raw.map (cvResize height width)
    if color then
      (true, npTranspose (stackColor width height resized) [1, 2, 0, 3])
    else
      (true, npTranspose
        (stackGray width height (resized.map (fun fr => fr.map
          (fun row => row.map cvtGray)))) [1, 2, 0, 0])

/-- The value returned (or exception raised) by `video3d_frames`. -/
def video3d_frames (v : PyVideo) (width height depth : ℕ)
    (color skip : Bool) : Option NDArray :=
  (video3d_framesRun v width height depth color skip).2

/-! ### Audio Feature Transform: `LogMelExtractor.transform`

`librosa.core.stft` (Hann window, `center=True`, reflect padding) is an
external DSP kernel; its complex output values are abstracted as a
parameter `stftVal audio t f = (re, im)`, while its output geometry is
modelled exactly: with `center=True` the signal is padded by
`n_fft // 2` on both sides and the number of frames is
`1 + (len(y) + 2*(n_fft//2) - n_fft) // hop_length`.  The mel filter bank
`librosa.filters.mel(...).T` is the external matrix `melW` of shape
`(n_fft//2 + 1, mel_bins)`.  `librosa.core.power_to_db` applied with
`ref=1.0, amin=1e-10, top_db=None` is abstracted by the parameter `logfn`
in the executable `ℚ`-valued pipeline (its exact real-number semantics is
`power_to_db` below, used for the numerical claim). -/

/-- Number of STFT frames produced by `librosa.core.stft` with
`center=True` on a signal of `n` samples. -/
def stftNumFrames (n window_size hop_size : ℕ) : ℕ :=
  1 + (n + 2 * (window_size / 2) - window_size) / hop_size

/-- `LogMelExtractor.transform(audio)`:
`np.dot(np.abs(stft_matrix) ** 2, self.melW)` followed by the log
compression (`logfn`) applied entrywise; the `astype(np.float32)` cast is
the identity at this level of abstraction. -/
def transform (logfn : ℚ → ℚ) (stftVal : List ℚ → ℕ → ℕ → ℚ × ℚ)
    (melW : ℕ → ℕ → ℚ) (window_size hop_size mel_bins : ℕ)
    (audio : List ℚ) : List (List ℚ) :=
  (List.range (stftNumFrames audio.length window_size hop_size)).map
    (fun t => (List.range mel_bins).map
      (fun m => logfn
        (((List.range (window_size / 2 + 1)).map
          (fun f => ((stftVal audio t f).1 ^ 2 + (stftVal audio t f).2 ^ 2)
            * melW f m)).sum)))

/-- Modelled from the spec: `pad_truncate_sequence` from `utilities`
(not under `src/`): "pad-or-truncate to exactly `total_samples`" — zero
padding at the end if too short, truncation if too long. -/
def pad_truncate_sequence (x : List ℚ) (max_len : ℕ) : List ℚ :=
  if x.length < max_len then x ++ List.replicate (max_len - x.length) 0
  else x.take max_len

/-- `librosa.core.power_to_db(S, ref, amin, top_db=None)` on one entry,
exact real-number semantics:
`10*log10(max(amin, S)) - 10*log10(max(amin, ref))`, with no `top_db`
clamp. -/
noncomputable def power_to_db (ref amin : ℝ) (x : ℝ) : ℝ :=
  10 * Real.logb 10 (max amin x) - 10 * Real.logb 10 (max amin ref)

/-- One entry of `np.dot(np.abs(stft_matrix) ** 2, self.melW)` over `ℝ`:
the mel-projected power at frame `t`, mel bin `m`. -/
noncomputable def melPower (stftVal : ℕ → ℕ → ℝ × ℝ) (melW : ℕ → ℕ → ℝ)
    (spec_bins : ℕ) (t m : ℕ) : ℝ :=
  ((List.range spec_bins).map
    (fun f => ((stftVal t f).1 ^ 2 + (stftVal t f).2 ^ 2) * melW f m)).sum

/-- `LogMelExtractor.transform` over `ℝ`: the log-mel spectrogram with the
source's exact `power_to_db(ref=1.0, amin=1e-10, top_db=None)` call. -/
noncomputable def transformR (stftVal : ℕ → ℕ → ℝ × ℝ)
    (melW : ℕ → ℕ → ℝ) (spec_bins frames mel_bins : ℕ) :
    List (List ℝ) :=
  (List.range frames).map (fun t =>
    (List.range mel_bins).map (fun m =>
      power_to_db 1 (1 / 10 ^ 10) (melPower stftVal melW spec_bins t m)))

/-! ### Archive Builder: `calculate_feature_for_all_audio_files`

Configuration constants come from the external `config` module; media
loaders (`read_audio`, the video files on disk) and the parsed metadata
(`read_metadata`) are external collaborators, modelled as explicit
parameters.  The hardcoded `mini_data = False` branch is the one
embedded.  The hdf5 file is modelled as the record of its datasets;
`audio_name`/`video_name` are written once before the loop (fixed-width
`S64` byte strings; the names used here are shorter than 64 bytes, so the
width is not modelled), while `feature`, `video_feature`, `weak_target`
and `strong_target` are resized by one row per item.  Any uncaught
exception in the loop aborts the whole run (`none`). -/

/-- Is `pat` a prefix of the character list? -/
def charsPrefixOf : List Char → List Char → Bool
  | [], _ => true
  | _ :: _, [] => false
  | p :: ps, c :: cs => p == c && charsPrefixOf ps cs

/-- Left-to-right non-overlapping replacement of `pat` by `rep` over a
character list, with structural fuel (one unit per consumed character;
`pat` is non-empty at every use site). -/
def replaceCharsAux (pat rep : List Char) : ℕ → List Char → List Char
  | 0, cs => cs
  | fuel + 1, cs =>
    match cs with
    | [] => []
    | c :: rest =>
      if charsPrefixOf pat cs then
        rep ++ replaceCharsAux pat rep fuel (List.drop pat.length cs)
      else c :: replaceCharsAux pat rep fuel rest

/-- Python's `str.replace(pat, rep)`: replace every (left-to-right,
non-overlapping) occurrence. -/
def pyReplace (s pat rep : String) : String :=
  ⟨replaceCharsAux pat.data rep.data s.data.length s.data⟩

/-- Code-point-wise `≤` on character lists, Python's string comparison. -/
def charsLe : List Char → List Char → Bool
  | [], _ => true
  | _ :: _, [] => false
  | a :: as, b :: bs =>
    if a.toNat < b.toNat then true
    else if b.toNat < a.toNat then false
    else charsLe as bs

/-- Python's `<=` on strings (lexicographic by code point). -/
def pyStrLe (a b : String) : Bool := charsLe a.data b.data

/-- One insertion step of the sort below. -/
def insertSorted (s : String) : List String → List String
  | [] => [s]
  | t :: ts => if pyStrLe s t then s :: t :: ts else t :: insertSorted s ts

/-- Python's `sorted` on strings (lexicographic by code point), as an
insertion sort. -/
def pysort (l : List String) : List String := l.foldr insertSorted []

/-- External run configuration (the `config` module's constants). -/
structure RunConfig where
  total_samples : ℕ
  frames_num : ℕ
  mel_bins : ℕ
  classes_num : ℕ
  window_size : ℕ
  hop_size : ℕ
  fps : ℚ
  video_fps : ℕ
  video_feature_dim : ℕ
  lb_to_idx : String → Option ℕ

/-- External corpus access: the metadata reader's output
(`audio_dict` keyed by item name, the two global label-presence flags)
together with the media loaders.  `audioOf` is `read_audio` at the item's
audio path, `videoOf` the video file at the item's derived `.avi` path. -/
structure Corpus where
  names : List String
  has_weak : Bool
  has_strong : Bool
  weakOf : String → List (Option String)
  strongOf : String → List Event
  audioOf : String → List ℚ
  videoOf : String → PyVideo

/-- One row of the archive, as written at index `n` of the loop. -/
structure ItemRow where
  feature : List (List ℚ)
  video_feature : NDArray
  weak : Option (List Bool)
  strong : Option (List (List Bool))

instance : Inhabited ItemRow := ⟨⟨[], default, none, none⟩⟩

/-- The produced hdf5 archive, dataset by dataset. -/
structure ArchiveH5 where
  audio_name : List String
  feature : List (List (List ℚ))
  video_name : List String
  video_feature : List NDArray
  weak_target : Option (List (List Bool))
  strong_target : Option (List (List (List Bool)))

/-- The body of the `for (n, audio_name) in enumerate(audio_names)` loop
for one item: read and pad-or-truncate the audio, extract and slice the
log-mel feature, extract the video feature from the `.wav → .avi` renamed
path, and rasterize the labels when the corresponding global flag is set.
Writing a row whose shape does not match the dataset's declared row shape
would raise in h5py, modelled by the two shape guards. -/
def processItem (cfg : RunConfig) (logfn : ℚ → ℚ)
    (stftVal : List ℚ → ℕ → ℕ → ℚ × ℚ) (melW : ℕ → ℕ → ℚ)
    (c : Corpus) (audio_name : String) : Option ItemRow :=
  let audio := pad_truncate_sequence (c.audioOf audio_name) cfg.total_samples
  let feature := (transform logfn stftVal melW cfg.window_size cfg.hop_size
    cfg.mel_bins audio).take cfg.frames_num
  if feature.length = cfg.frames_num then
    match video3d_frames (c.videoOf (pyReplace audio_name ".wav" ".avi"))
        cfg.video_feature_dim cfg.video_feature_dim cfg.video_fps
        true true with
    | none => none
    | some vf =>
      if vf.shape = [cfg.video_feature_dim, cfg.video_feature_dim,
          cfg.video_fps, 3] then
        match (if c.has_weak then
            (labels_to_target (c.weakOf audio_name) cfg.classes_num
              cfg.lb_to_idx).map some
          else some none : Option (Option (List Bool))) with
        | none => none
        | some wt =>
          match (if c.has_strong then
              (events_to_target (c.strongOf audio_name) cfg.frames_num
                cfg.classes_num cfg.fps cfg.lb_to_idx).map some
            else some none : Option (Option (List (List Bool)))) with
          | none => none
          | some st => some ⟨feature, vf, wt, st⟩
      else none
  else none

/-- The item loop: each item appends one row; the first uncaught
exception aborts the run. -/
def buildRows (f : String → Option ItemRow) : List String →
    Option (List ItemRow)
  | [] => some []
  | n :: ns =>
    match f n with
    | none => none
    | some r =>
      match buildRows f ns with
      | none => none
      | some rs => some (r :: rs)

/-- `calculate_feature_for_all_audio_files` (the archive-producing part):
`audio_names = sorted(audio_dict.keys())`,
`video_names = sorted([key.replace('.wav', '.avi') for key in
audio_dict.keys()])`, then one pass over `audio_names` in order, growing
the co-indexed datasets by one row per item. -/
def buildArchive (cfg : RunConfig) (logfn : ℚ → ℚ)
    (stftVal : List ℚ → ℕ → ℕ → ℚ × ℚ) (melW : ℕ → ℕ → ℚ)
    (c : Corpus) : Option ArchiveH5 :=
  let audio_names := pysort c.names
  let video_names := pysort (c.names.map
    (fun key => pyReplace key ".wav" ".avi"))
  match buildRows (processItem cfg logfn stftVal melW c) audio_names with
  | none => none
  | some rows =>
    some { audio_name := audio_names
           feature := rows.map (fun r => r.feature)
           video_name := video_names
           video_feature := rows.map (fun r => r.video_feature)
           weak_target :=
             if c.has_weak then some (rows.map (fun r => r.weak.getD []))
             else none
           strong_target :=
             if c.has_strong then
               some (rows.map (fun r => r.strong.getD []))
             else none }

/-! ### Scalar Reducer: `calculate_scalar` -/

/-- Modelled from the spec: `calculate_scalar_of_tensor` from `utilities`
(not under `src/`): the element-wise mean and standard deviation across
the item (row) axis, retaining one row's shape.  Rows are flattened to
vectors (element-wise semantics is unchanged by flattening); the square
root inside the standard deviation has no computable `ℚ` form and is
abstracted as the parameter `sq` — every property proved below holds for
an arbitrary `sq`. -/
def calculate_scalar_of_tensor (sq : ℚ → ℚ) (x : List (List ℚ)) :
    List ℚ × List ℚ :=
  let ncols := (x.headD []).length
  let n : ℚ := (x.length : ℚ)
  let mean := (List.range ncols).map
    (fun j => ((x.map (fun row => row.getD j 0)).sum) / n)
  let std := (List.range ncols).map
    (fun j => sq (((x.map (fun row =>
      (row.getD j 0 - mean.getD j 0) ^ 2)).sum) / n))
  (mean, std)

/-- The scalar record written to the companion archive: groups `audio`
and `video`, datasets `mean` and `std`. -/
structure ScalarRecord where
  audio_mean : List ℚ
  audio_std : List ℚ
  video_mean : List ℚ
  video_std : List ℚ

/-- Flatten a 2-D feature row (audio) to a vector. -/
def flatRow2 (row : List (List ℚ)) : List ℚ := row.flatten

/-- Flatten an ndarray feature row (video) to a vector by enumerating its
index space in row-major order. -/
def ndFlatten (a : NDArray) : List ℚ :=
  ((a.shape.foldr (fun d acc =>
    (List.range d).flatMap (fun i => acc.map (fun idx => i :: idx)))
    [[]])).map a.data

/-- The reduction step of `calculate_scalar`: read the full `feature` and
`video_feature` datasets of a completed archive and compute the two
mean/std pairs independently. -/
def calcScalarRecord (sq : ℚ → ℚ) (a : ArchiveH5) : ScalarRecord :=
  let audio := calculate_scalar_of_tensor sq (a.feature.map flatRow2)
  let video := calculate_scalar_of_tensor sq (a.video_feature.map ndFlatten)
  ⟨audio.1, audio.2, video.1, video.2⟩

/-- File-system side effects of `calculate_scalar`, in program order. -/
inductive FileOp where
  | createFolder (path : String)
  | openRead (path : String)
  | openWrite (path : String)
  deriving DecidableEq

/-- `calculate_scalar()`: the `assert data_type == 'train_synthetic'`
precondition check stands before every path computation, folder creation
and file open; on failure the `AssertionError` (with the source's message)
aborts with no file I/O performed.  `relName` abstracts
`get_relative_path_no_extension` (from `utilities`, not under `src/`);
`archiveAt` abstracts reading the feature archive at a path; path
separators are normalized to `/`. -/
def calculate_scalar (sq : ℚ → ℚ) (relName : String → String)
    (archiveAt : String → ArchiveH5) (data_type : String)
    (mini_data : Bool) (frames_per_second mel_bins : ℕ) :
    Except String (List FileOp × ScalarRecord) :=
  if data_type = "train_synthetic" then
    let prefixStr := if mini_data then "minidata_" else ""
    let rel := relName data_type
    let dirPart := prefixStr ++ "logmel_" ++ toString frames_per_second
      ++ "frames_" ++ toString mel_bins ++ "melbins"
    let feature_path := "files/features/" ++ dirPart ++ "/" ++ rel ++ ".h5"
    let scalar_path := "files/scalars/" ++ dirPart ++ "/" ++ rel ++ ".h5"
    let record := calcScalarRecord sq (archiveAt feature_path)
    Except.ok ([FileOp.createFolder ("files/scalars/" ++ dirPart),
      FileOp.openRead feature_path, FileOp.openWrite scalar_path], record)
  else
    Except.error "We only support using train_weak data to calculate scalar. "

/-- The bit `c` is set by label `lab` in `labels_to_target`. -/
def labelCoverB (lb_to_idx : String → Option ℕ) (lab : Option String)
    (c : ℕ) : Bool :=
  match lab with
  | none => false
  | some name =>
    match lb_to_idx name with
    | none => false
    | some classes_id => decide (c = classes_id)

/-- Concrete video with a single decodable 1×1 frame, used as test input. -/
def oneFrameVideo : PyVideo := ⟨1, fun _ => some [[(0, 0, 0)]]⟩

/-- Concrete video whose every decode attempt fails (e.g. an empty or
corrupt stream), used as test input. -/
def badVideo : PyVideo := ⟨0, fun _ => none⟩

/-- Concrete tiny run configuration used as test input. -/
def cfgTiny : RunConfig := ⟨1, 1, 1, 1, 2, 1, 1, 1, 1, fun _ => some 0⟩

/-- Concrete corpus whose two item names sort compatibly with the
`.wav → .avi` renaming, used as test input. -/
def corpGood : Corpus :=
  ⟨["a.wav", "b.wav"], false, false, fun _ => [], fun _ => [],
   fun _ => [0], fun _ => oneFrameVideo⟩

/-- Concrete corpus whose two item names sort *incompatibly* with the
`.wav → .avi` renaming: `"a.b.wav" < "a.wav"` but `"a.avi" < "a.b.avi"`.
Used as test input. -/
def corpSwap : Corpus :=
  ⟨["a.wav", "a.b.wav"], false, false, fun _ => [], fun _ => [],
   fun _ => [0], fun _ => oneFrameVideo⟩

/-- Concrete one-item completed archive used as test input. -/
def archTiny : ArchiveH5 :=
  ⟨["a.wav"], [[[1, 2]]], ["a.avi"], [⟨[1, 1, 1, 3], fun _ => 5⟩],
   none, none⟩

/-! ## Theorems -/

/-! ### Generic helper lemmas -/

theorem getD_range_map {α : Type} (g : ℕ → α) (n i : ℕ) (hi : i < n)
    (d : α) : ((List.range n).map g).getD i d = g i := by
  rw [List.getD_eq_getElem _ _ (by simpa using hi)]
  simp

theorem labelOk_some {lb : String → Option ℕ} {classes_num : ℕ}
    {nm : String} (h : labelOk lb classes_num (some nm) = true) :
    ∃ cid, lb nm = some cid ∧ cid < classes_num := by
  cases hl : lb nm with
  | none => simp [labelOk, hl] at h
  | some cid =>
    simp only [labelOk, hl, decide_eq_true_eq] at h
    exact ⟨cid, rfl, h⟩

theorem labelCoverB_eq_true {lb : String → Option ℕ}
    {lab : Option String} {c : ℕ} :
    labelCoverB lb lab c = true ↔
      ∃ nm, lab = some nm ∧ lb nm = some c := by
  cases lab with
  | none => simp [labelCoverB]
  | some nm =>
    cases hl : lb nm with
    | none => simp [labelCoverB, hl]
    | some cid =>
      simp only [labelCoverB, hl, decide_eq_true_eq]
      constructor
      · rintro rfl; exact ⟨nm, rfl, hl⟩
      · rintro ⟨nm2, hnm, hc⟩
        cases hnm
        rw [hl] at hc
        exact (Option.some.injEq _ _ ▸ hc).symm

theorem labelsLoop_some (classes_num : ℕ) (lb : String → Option ℕ) :
    ∀ (labels : List (Option String)) (g : ℕ → Bool),
      (∀ lab ∈ labels, labelOk lb classes_num lab = true) →
      ∃ gf, labelsLoop classes_num lb g labels = some gf ∧
        gf = fun c => g c || labels.any (fun lab => labelCoverB lb lab c)
  | [], g, _ => ⟨g, rfl, by funext c; simp⟩
  | lab :: rest, g, hok => by
    have hhead := hok lab (List.mem_cons_self _ _)
    have htail : ∀ l ∈ rest, labelOk lb classes_num l = true :=
      fun l hl => hok l (List.mem_cons_of_mem _ hl)
    cases lab with
    | none =>
      obtain ⟨gf, hgf, hfun⟩ := labelsLoop_some classes_num lb rest g htail
      refine ⟨gf, ?_, ?_⟩
      · simpa [labelsLoop, applyLabel] using hgf
      · rw [hfun]; funext c; simp [labelCoverB]
    | some nm =>
      obtain ⟨cid, hl, hlt⟩ := labelOk_some hhead
      obtain ⟨gf, hgf, hfun⟩ := labelsLoop_some classes_num lb rest
        (fun c => if c = cid then true else g c) htail
      refine ⟨gf, ?_, ?_⟩
      · simpa [labelsLoop, applyLabel, hl, hlt] using hgf
      · rw [hfun]; funext c
        by_cases hc : c = cid <;>
          simp [labelCoverB, hl, hc, List.any_cons]

/-! ### Claim C4 -/

/-- Claim C4, counterexample: a label that is present (non-missing) but
absent from `label_to_index` makes `labels_to_target` raise `KeyError`
(modelled by `none`) rather than being silently skipped, refuting
"labels_to_target never fails on a label that is not in the class
vocabulary". -/
theorem labels_unknown_raises :
    labels_to_target [some "Unknown"] 5
      (fun s => if s = "Dog" then some 0 else none) = none := by
  rfl

/-- Claim C4 (amended): `labels_to_target` silently skips labels marked
missing/NaN and sets exactly the bits of the mapped indices of the
remaining labels, provided every non-missing label is in the
`label_to_index` map (with an in-range index); a non-missing label absent
from the map raises a lookup error instead of being skipped. -/
theorem labels_to_target_exact (labels : List (Option String))
    (classes_num : ℕ) (lb : String → Option ℕ)
    (hok : ∀ lab ∈ labels, labelOk lb classes_num lab = true) :
    ∃ v, labels_to_target labels classes_num lb = some v ∧
      v.length = classes_num ∧
      ∀ c, c < classes_num →
        ((v.getD c false = true) ↔
          ∃ nm, (some nm) ∈ labels ∧ lb nm = some c) := by
  obtain ⟨gf, hgf, hfun⟩ :=
    labelsLoop_some classes_num lb labels (fun _ => false) hok
  refine ⟨(List.range classes_num).map gf, ?_, by simp, ?_⟩
  · rw [labels_to_target, hgf]; rfl
  · intro c hc
    rw [getD_range_map gf classes_num c hc, hfun]
    simp only [Bool.false_or, List.any_eq_true]
    constructor
    · rintro ⟨lab, hmem, hcov⟩
      obtain ⟨nm, rfl, hnm⟩ := labelCoverB_eq_true.mp hcov
      exact ⟨nm, hmem, hnm⟩
    · rintro ⟨nm, hmem, hnm⟩
      exact ⟨some nm, hmem, labelCoverB_eq_true.mpr ⟨nm, rfl, hnm⟩⟩

/-- Witness for the amended C4 theorem at the spec's own example:
`labels_to_target(["Dog", "Blender", NaN], 5, {"Dog": 0, "Blender": 1})`.
-/
theorem labels_to_target_exact_witness :
    (∀ lab ∈ ([some "Dog", some "Blender", none] : List (Option String)),
      labelOk (fun s => if s = "Dog" then some 0
        else if s = "Blender" then some 1 else none) 5 lab = true) ∧
    (∃ v, labels_to_target [some "Dog", some "Blender", none] 5
        (fun s => if s = "Dog" then some 0
          else if s = "Blender" then some 1 else none) = some v ∧
      v.length = 5 ∧
      ∀ c, c < 5 →
        ((v.getD c false = true) ↔
          ∃ nm, (some nm) ∈ ([some "Dog", some "Blender", none] :
              List (Option String)) ∧
            (if nm = "Dog" then some 0
              else if nm = "Blender" then some 1 else none) = some c)) :=
  ⟨by decide, labels_to_target_exact _ _ _ (by decide)⟩

/-! ### Event rasterization lemmas -/

theorem coverB_eq_true {frames_num : ℕ} {fps : ℚ}
    {lb : String → Option ℕ} {ev : Event} {f c : ℕ} :
    coverB frames_num fps lb ev f c = true ↔
      ∃ nm, ev.event = some nm ∧ lb nm = some c ∧
        npSliceIdx frames_num (onsetFrame fps ev) ≤ f ∧
        f < npSliceIdx frames_num (offsetFrame fps ev) := by
  cases hev : ev.event with
  | none => simp [coverB, hev]
  | some nm =>
    cases hl : lb nm with
    | none => simp [coverB, hev, hl]
    | some cid =>
      simp only [coverB, hev, hl, Bool.and_eq_true, decide_eq_true_eq]
      constructor
      · rintro ⟨⟨rfl, h1⟩, h2⟩
        exact ⟨nm, rfl, hl, h1, h2⟩
      · rintro ⟨nm2, hnm, hc, h1, h2⟩
        cases hnm
        rw [hl] at hc
        cases hc
        exact ⟨⟨rfl, h1⟩, h2⟩

theorem eventNameOk_some {lb : String → Option ℕ} {classes_num : ℕ}
    {ev : Event} {nm : String} (hev : ev.event = some nm)
    (h : eventNameOk lb classes_num ev = true) :
    ∃ cid, lb nm = some cid ∧ cid < classes_num := by
  rw [eventNameOk, hev] at h
  exact labelOk_some h

theorem eventsLoop_some (frames_num classes_num : ℕ) (fps : ℚ)
    (lb : String → Option ℕ) :
    ∀ (evs : List Event) (g : ℕ → ℕ → Bool),
      (∀ ev ∈ evs, eventNameOk lb classes_num ev = true) →
      ∃ gf, eventsLoop frames_num classes_num fps lb g evs = some gf ∧
        gf = fun f c => g f c ||
          evs.any (fun ev => coverB frames_num fps lb ev f c)
  | [], g, _ => ⟨g, rfl, by funext f c; simp⟩
  | ev :: rest, g, hok => by
    have hhead := hok ev (List.mem_cons_self _ _)
    have htail : ∀ e ∈ rest, eventNameOk lb classes_num e = true :=
      fun e he => hok e (List.mem_cons_of_mem _ he)
    cases hev : ev.event with
    | none =>
      obtain ⟨gf, hgf, hfun⟩ :=
        eventsLoop_some frames_num classes_num fps lb rest g htail
      refine ⟨gf, ?_, ?_⟩
      · simpa [eventsLoop, applyEvent, hev] using hgf
      · rw [hfun]; funext f c; simp [coverB, hev]
    | some nm =>
      obtain ⟨cid, hl, hlt⟩ := eventNameOk_some hev hhead
      obtain ⟨gf, hgf, hfun⟩ :=
        eventsLoop_some frames_num classes_num fps lb rest
          (fun f c =>
            if c = cid ∧ npSliceIdx frames_num (onsetFrame fps ev) ≤ f ∧
                f < npSliceIdx frames_num (offsetFrame fps ev) then true
            else g f c) htail
      refine ⟨gf, ?_, ?_⟩
      · simpa [eventsLoop, applyEvent, hev, hl, hlt] using hgf
      · rw [hfun]; funext f c
        by_cases hcov : c = cid ∧
            npSliceIdx frames_num (onsetFrame fps ev) ≤ f ∧
            f < npSliceIdx frames_num (offsetFrame fps ev)
        · obtain ⟨rfl, h1, h2⟩ := hcov
          simp [coverB, hev, hl, h1, h2]
        · have : coverB frames_num fps lb ev f c = false := by
            rw [← Bool.not_eq_true, coverB_eq_true]
            rintro ⟨nm2, hnm, hc, h1, h2⟩
            rw [hev] at hnm
            cases hnm
            rw [hl] at hc
            cases hc
            exact hcov ⟨rfl, h1, h2⟩
          simp [hcov, this, List.any_cons]

theorem pyRound_nonneg {q : ℚ} (h : 0 ≤ q) : 0 ≤ pyRound q := by
  have hf : (0 : ℤ) ≤ ⌊q⌋ := Int.floor_nonneg.mpr h
  unfold pyRound
  dsimp only
  split_ifs <;> omega

theorem npSliceIdx_of_nonneg (n : ℕ) (b : ℤ) (hb : 0 ≤ b) :
    npSliceIdx n b = min b.toNat n := by
  rw [npSliceIdx, if_neg (not_lt.mpr hb)]

theorem le_npSliceIdx_iff {n : ℕ} {b : ℤ} (hb : 0 ≤ b) {f : ℕ}
    (hf : f < n) : npSliceIdx n b ≤ f ↔ b ≤ (f : ℤ) := by
  rw [npSliceIdx_of_nonneg n b hb, ← Int.toNat_le]
  constructor
  · intro h
    rcases min_le_iff.mp h with h1 | h1
    · exact h1
    · omega
  · intro h
    exact le_trans (min_le_left _ _) h

theorem lt_npSliceIdx_iff {n : ℕ} {e : ℤ} {f : ℕ} (hf : f < n) :
    f < npSliceIdx n e ↔ (f : ℤ) < e ∨
      (e < 0 ∧ f < (max 0 ((n : ℤ) + e)).toNat) := by
  rw [npSliceIdx]
  split_ifs with he
  · constructor
    · intro h; exact Or.inr ⟨he, h⟩
    · rintro (h | ⟨_, h⟩)
      · omega
      · exact h
  · rw [lt_min_iff]
    constructor
    · rintro ⟨h1, _⟩
      exact Or.inl (Int.lt_toNat.mp h1)
    · rintro (h | ⟨he2, _⟩)
      · exact ⟨Int.lt_toNat.mpr h, hf⟩
      · omega

/-! ### Claim C2 -/

/-- Claim C2: for every event list whose non-missing names are in the
vocabulary (with in-range indices) and whose timestamps are non-negative,
`events_to_target` returns a `frames_num × classes_num` boolean matrix in
which exactly the cells in rows
`[round(onset*fps), round(offset*fps) + 1)` of the event's class column
are set, all other cells are `0`, and repeating an event does not change
the result (OR semantics). -/
theorem events_to_target_exact (evs : List Event)
    (frames_num classes_num : ℕ) (fps : ℚ) (lb : String → Option ℕ)
    (hok : ∀ ev ∈ evs, eventNameOk lb classes_num ev = true)
    (hnn : ∀ ev ∈ evs, 0 ≤ ev.onset ∧ 0 ≤ ev.offset)
    (hfps : 0 ≤ fps) :
    ∃ M, events_to_target evs frames_num classes_num fps lb = some M ∧
      (∀ f c, f < frames_num → c < classes_num →
        (((M.getD f []).getD c false = true) ↔
          ∃ ev ∈ evs, ∃ nm, ev.event = some nm ∧ lb nm = some c ∧
            onsetFrame fps ev ≤ (f : ℤ) ∧
            (f : ℤ) < offsetFrame fps ev)) ∧
      (∀ ev ∈ evs,
        events_to_target (evs ++ [ev]) frames_num classes_num fps lb =
          some M) := by
  obtain ⟨gf, hgf, hfun⟩ := eventsLoop_some frames_num classes_num fps lb
    evs (fun _ _ => false) hok
  have honset : ∀ ev ∈ evs, 0 ≤ onsetFrame fps ev := fun ev hev =>
    pyRound_nonneg (mul_nonneg (hnn ev hev).1 hfps)
  have hoffset : ∀ ev ∈ evs, 0 ≤ offsetFrame fps ev := by
    intro ev hev
    rw [offsetFrame]
    have := pyRound_nonneg (mul_nonneg (hnn ev hev).2 hfps)
    omega
  refine ⟨(List.range frames_num).map
    (fun f => (List.range classes_num).map (fun c => gf f c)), ?_, ?_, ?_⟩
  · rw [events_to_target, hgf]; rfl
  · intro f c hf hc
    rw [getD_range_map _ frames_num f hf, getD_range_map _ classes_num c hc,
      hfun]
    simp only [Bool.false_or, List.any_eq_true]
    constructor
    · rintro ⟨ev, hmem, hcov⟩
      obtain ⟨nm, hnm, hl, h1, h2⟩ := coverB_eq_true.mp hcov
      refine ⟨ev, hmem, nm, hnm, hl, ?_, ?_⟩
      · exact (le_npSliceIdx_iff (honset ev hmem) hf).mp h1
      · rcases (lt_npSliceIdx_iff hf).mp h2 with h | ⟨hneg, _⟩
        · exact h
        · exact absurd (hoffset ev hmem) (not_le.mpr hneg)
    · rintro ⟨ev, hmem, nm, hnm, hl, h1, h2⟩
      refine ⟨ev, hmem, coverB_eq_true.mpr ⟨nm, hnm, hl, ?_, ?_⟩⟩
      · exact (le_npSliceIdx_iff (honset ev hmem) hf).mpr h1
      · exact (lt_npSliceIdx_iff hf).mpr (Or.inl h2)
  · intro ev hmem
    have hok2 : ∀ e ∈ evs ++ [ev], eventNameOk lb classes_num e = true := by
      intro e he
      rcases List.mem_append.mp he with he | he
      · exact hok e he
      · rw [List.mem_singleton.mp he]; exact hok ev hmem
    obtain ⟨gf2, hgf2, hfun2⟩ := eventsLoop_some frames_num classes_num fps
      lb (evs ++ [ev]) (fun _ _ => false) hok2
    have hsame : gf2 = gf := by
      rw [hfun, hfun2]
      funext f c
      simp only [List.any_append, List.any_cons, List.any_nil,
        Bool.or_false, Bool.false_or]
      cases hcov : coverB frames_num fps lb ev f c with
      | false => simp
      | true =>
        have : evs.any (fun e => coverB frames_num fps lb e f c) = true :=
          List.any_eq_true.mpr ⟨ev, hmem, hcov⟩
        simp [this]
    rw [events_to_target, hgf2, hsame]
    rfl

/-- Witness for the C2 theorem at the spec's own example: one event
`{"event": "Dog", "onset": 1.0, "offset": 2.0}`, `frames_num = 10`,
`classes_num = 3`, `frames_per_second = 5`. -/
theorem events_to_target_exact_witness :
    (∀ ev ∈ ([⟨some "Dog", 1, 2⟩] : List Event),
      eventNameOk (fun s => if s = "Dog" then some 0 else none) 3 ev
        = true) ∧
    (∀ ev ∈ ([⟨some "Dog", 1, 2⟩] : List Event),
      0 ≤ ev.onset ∧ 0 ≤ ev.offset) ∧
    (0 : ℚ) ≤ 5 ∧
    (∃ M, events_to_target [⟨some "Dog", 1, 2⟩] 10 3 5
        (fun s => if s = "Dog" then some 0 else none) = some M ∧
      (∀ f c, f < 10 → c < 3 →
        (((M.getD f []).getD c false = true) ↔
          ∃ ev ∈ ([⟨some "Dog", 1, 2⟩] : List Event), ∃ nm,
            ev.event = some nm ∧
            (if nm = "Dog" then some 0 else none) = some c ∧
            onsetFrame 5 ev ≤ (f : ℤ) ∧ (f : ℤ) < offsetFrame 5 ev)) ∧
      (∀ ev ∈ ([⟨some "Dog", 1, 2⟩] : List Event),
        events_to_target ([⟨some "Dog", 1, 2⟩] ++ [ev]) 10 3 5
          (fun s => if s = "Dog" then some 0 else none) = some M)) :=
  ⟨by decide, by decide, by norm_num,
    events_to_target_exact _ _ _ _ _ (by decide) (by decide) (by norm_num)⟩

/-! ### Claim C10 -/

/-- Claim C10: `events_to_target` never raises and never writes outside
the `frames_num × classes_num` matrix, even when an event's
`offset_frame` exceeds `frames_num` or its `onset_frame` is at or past
`frames_num` (no range restriction is assumed): the slice bounds are
clamped by numpy slice normalization, the output shape stays exactly
`(frames_num, classes_num)`, and bits for frames at or beyond
`frames_num` are silently dropped.  (Only the event names must be in the
vocabulary; an out-of-vocabulary name raises `KeyError` — see C4.) -/
theorem events_to_target_clamps (evs : List Event)
    (frames_num classes_num : ℕ) (fps : ℚ) (lb : String → Option ℕ)
    (hok : ∀ ev ∈ evs, eventNameOk lb classes_num ev = true) :
    ∃ M, events_to_target evs frames_num classes_num fps lb = some M ∧
      M.length = frames_num ∧
      (∀ row ∈ M, row.length = classes_num) ∧
      (∀ f c, f < frames_num → c < classes_num →
        (((M.getD f []).getD c false = true) ↔
          ∃ ev ∈ evs, ∃ nm, ev.event = some nm ∧ lb nm = some c ∧
            npSliceIdx frames_num (onsetFrame fps ev) ≤ f ∧
            f < npSliceIdx frames_num (offsetFrame fps ev))) := by
  obtain ⟨gf, hgf, hfun⟩ := eventsLoop_some frames_num classes_num fps lb
    evs (fun _ _ => false) hok
  refine ⟨(List.range frames_num).map
    (fun f => (List.range classes_num).map (fun c => gf f c)), ?_, by simp,
    ?_, ?_⟩
  · rw [events_to_target, hgf]; rfl
  · intro row hrow
    obtain ⟨f, _, rfl⟩ := List.mem_map.mp hrow
    simp
  · intro f c hf hc
    rw [getD_range_map _ frames_num f hf, getD_range_map _ classes_num c hc,
      hfun]
    simp only [Bool.false_or, List.any_eq_true]
    constructor
    · rintro ⟨ev, hmem, hcov⟩
      obtain ⟨nm, hnm, hl, h1, h2⟩ := coverB_eq_true.mp hcov
      exact ⟨ev, hmem, nm, hnm, hl, h1, h2⟩
    · rintro ⟨ev, hmem, nm, hnm, hl, h1, h2⟩
      exact ⟨ev, hmem, coverB_eq_true.mpr ⟨nm, hnm, hl, h1, h2⟩⟩

/-- Witness for the C10 theorem at an out-of-range event: offset frame
`round(3*5)+1 = 16` exceeds `frames_num = 10`, yet the call succeeds with
a `10 × 3` matrix. -/
theorem events_to_target_clamps_witness :
    (∀ ev ∈ ([⟨some "Dog", 1, 3⟩] : List Event),
      eventNameOk (fun s => if s = "Dog" then some 0 else none) 3 ev
        = true) ∧
    (∃ M, events_to_target [⟨some "Dog", 1, 3⟩] 10 3 5
        (fun s => if s = "Dog" then some 0 else none) = some M ∧
      M.length = 10 ∧
      (∀ row ∈ M, row.length = 3) ∧
      (∀ f c, f < 10 → c < 3 →
        (((M.getD f []).getD c false = true) ↔
          ∃ ev ∈ ([⟨some "Dog", 1, 3⟩] : List Event), ∃ nm,
            ev.event = some nm ∧
            (if nm = "Dog" then some 0 else none) = some c ∧
            npSliceIdx 10 (onsetFrame 5 ev) ≤ f ∧
            f < npSliceIdx 10 (offsetFrame 5 ev)))) :=
  ⟨by decide, events_to_target_clamps _ _ _ _ _ (by decide)⟩

/-! ### Claim C3 -/

/-- Claim C3 fails on the code: for `color=False` the source executes
`np.array(X).transpose((1, 2, 0, 0))` — four axes with a repeated axis
applied to the 3-D grayscale stack — which unconditionally raises
`ValueError`, so the grayscale branch never returns the claimed
`(width, height, frame_count, 1)` tensor.  Evaluation of the embedding at
a concrete decodable video. -/
theorem video3d_frames_gray_raises :
    video3d_frames oneFrameVideo 2 2 1 false true = none ∧
    (video3d_frames oneFrameVideo 2 2 1 true true).map
      (fun a => a.shape) = some [2, 2, 1, 3] := by
  constructor
  · rfl
  · rfl

/-! ### Claim C5 -/

theorem readSelected_some (v : PyVideo) :
    ∀ idxs : List ℕ, (∀ i ∈ idxs, (v.read i).isSome = true) →
      ∃ frs, readSelected v idxs = some frs
  | [], _ => ⟨[], rfl⟩
  | i :: rest, h => by
    have hi := h i (List.mem_cons_self _ _)
    obtain ⟨fr, hfr⟩ := Option.isSome_iff_exists.mp hi
    obtain ⟨frs, hfrs⟩ := readSelected_some v rest
      (fun j hj => h j (List.mem_cons_of_mem _ hj))
    exact ⟨fr :: frs, by rw [readSelected, hfr, hfrs]⟩

/-- Claim C5, counterexample: on a video whose first selected frame fails
to decode (`cap.read()` returns no frame, so `cv2.resize` raises), the
exception propagates out of the loop and `cap.release()` — which stands
after the loop, unprotected by `try/finally` — is never executed.  The
first component of `video3d_framesRun` records whether the release ran. -/
theorem video3d_frames_leaks_on_decode_failure :
    (video3d_framesRun badVideo 2 2 1 true true).1 = false ∧
    (video3d_framesRun badVideo 2 2 1 true true).2 = none := by
  exact ⟨rfl, rfl⟩

/-- Claim C5 (amended): the decoder handle is released on every exit path
on which all selected frames decode successfully — including the
`color=False` path, where the release precedes the invalid-transpose
error — but when decoding/resizing of a selected frame fails, the
exception propagates before `cap.release()` and the handle is not
released. -/
theorem video3d_frames_releases_when_decodes (v : PyVideo)
    (width height depth : ℕ) (color skip : Bool)
    (hread : ∀ i ∈ selectedIdxs skip v.nframe depth,
      (v.read i).isSome = true) :
    (video3d_framesRun v width height depth color skip).1 = true := by
  obtain ⟨frs, hfrs⟩ := readSelected_some v _ hread
  rw [video3d_framesRun, hfrs]
  cases color <;> rfl

/-- Witness for the amended C5 theorem: a decodable one-frame video,
`color=False` (the branch whose transpose raises *after* the release). -/
theorem video3d_frames_releases_witness :
    (∀ i ∈ selectedIdxs true oneFrameVideo.nframe 1,
      (oneFrameVideo.read i).isSome = true) ∧
    (video3d_framesRun oneFrameVideo 2 2 1 false true).1 = true :=
  ⟨by decide,
    video3d_frames_releases_when_decodes oneFrameVideo 2 2 1 false true
      (by decide)⟩

/-! ### Claim C6 -/

/-- Claim C6: every entry of the Audio Feature Transform output equals
`10*log10(max(mel_power, 1e-10))` relative to reference power `1.0` with
no upper clamp (the `ref` term of `power_to_db` vanishes for `ref=1.0`),
and is bounded below by `10*log10(1e-10)` for any input with non-negative
mel filter weights — in particular the value is a real number (no NaN and
no `-inf`), including for all-zero audio, thanks to the `amin` floor.
The `float32` cast is the identity at real-number level. -/
theorem transformR_entry_floor (stftVal : ℕ → ℕ → ℝ × ℝ)
    (melW : ℕ → ℕ → ℝ) (spec_bins frames mel_bins : ℕ)
    (_hW : ∀ f m, 0 ≤ melW f m) (t m : ℕ) (ht : t < frames)
    (hm : m < mel_bins) :
    (((transformR stftVal melW spec_bins frames mel_bins).getD t
        []).getD m 0 =
      10 * Real.logb 10
        (max ((1 : ℝ) / 10 ^ 10) (melPower stftVal melW spec_bins t m))) ∧
    10 * Real.logb 10 ((1 : ℝ) / 10 ^ 10) ≤
      ((transformR stftVal melW spec_bins frames mel_bins).getD t
        []).getD m 0 := by
  have hentry : ((transformR stftVal melW spec_bins frames mel_bins).getD
      t []).getD m 0 =
      power_to_db 1 ((1 : ℝ) / 10 ^ 10)
        (melPower stftVal melW spec_bins t m) := by
    rw [transformR, getD_range_map _ frames t ht,
      getD_range_map _ mel_bins m hm]
  have hamin : ((1 : ℝ) / 10 ^ 10) ≤ 1 := by norm_num
  have haminpos : (0 : ℝ) < (1 : ℝ) / 10 ^ 10 := by norm_num
  have hrefterm : power_to_db 1 ((1 : ℝ) / 10 ^ 10)
      (melPower stftVal melW spec_bins t m) =
      10 * Real.logb 10
        (max ((1 : ℝ) / 10 ^ 10) (melPower stftVal melW spec_bins t m)) := by
    rw [power_to_db, max_eq_right hamin, Real.logb_one]
    ring
  refine ⟨by rw [hentry, hrefterm], ?_⟩
  rw [hentry, hrefterm]
  have hmono : Real.logb 10 ((1 : ℝ) / 10 ^ 10) ≤
      Real.logb 10
        (max ((1 : ℝ) / 10 ^ 10) (melPower stftVal melW spec_bins t m)) :=
    Real.logb_le_logb_of_le (by norm_num) haminpos (le_max_left _ _)
  linarith

/-- Witness for the C6 theorem: the all-zero spectrogram (all-zero audio)
with a non-negative one-bin filter bank. -/
theorem transformR_entry_floor_witness :
    (∀ f m : ℕ, (0 : ℝ) ≤ (fun _ _ => (0 : ℝ)) f m) ∧ (0 : ℕ) < 1 ∧
    (((transformR (fun _ _ => ((0 : ℝ), 0)) (fun _ _ => (0 : ℝ)) 1 1
        1).getD 0 []).getD 0 0 =
      10 * Real.logb 10
        (max ((1 : ℝ) / 10 ^ 10)
          (melPower (fun _ _ => ((0 : ℝ), 0)) (fun _ _ => (0 : ℝ)) 1 0 0))) ∧
    10 * Real.logb 10 ((1 : ℝ) / 10 ^ 10) ≤
      (((transformR (fun _ _ => ((0 : ℝ), 0)) (fun _ _ => (0 : ℝ)) 1 1
        1).getD 0 []).getD 0 0) :=
  ⟨fun _ _ => le_refl 0, by decide,
    transformR_entry_floor (fun _ _ => ((0 : ℝ), 0)) (fun _ _ => (0 : ℝ))
      1 1 1 (fun _ _ => le_refl 0) 0 0 (by decide) (by decide)⟩

/-! ### Claim C7 -/

theorem pad_truncate_sequence_length (x : List ℚ) (max_len : ℕ) :
    (pad_truncate_sequence x max_len).length = max_len := by
  rw [pad_truncate_sequence]
  split_ifs with h
  · simp; omega
  · simp; omega

/-- Claim C7: after the raw audio is padded-or-truncated to
`total_samples`, the Audio Feature Transform output has
`stftNumFrames total_samples window_size hop_size` rows of `mel_bins`
entries each; whenever the configuration satisfies
`frames_num ≤ stftNumFrames total_samples window_size hop_size` (the
"output has ≥ frames_num frames" part of the claim, which holds for the
fixed DCASE-style constants — see the witness), the row count is at least
`frames_num` and the Archive Builder's slice `feature[0:frames_num]`
has shape exactly `(frames_num, mel_bins)`. -/
theorem transform_shape (logfn : ℚ → ℚ)
    (stftVal : List ℚ → ℕ → ℕ → ℚ × ℚ) (melW : ℕ → ℕ → ℚ)
    (window_size hop_size mel_bins frames_num total_samples : ℕ)
    (audio : List ℚ)
    (hlen : frames_num ≤ stftNumFrames total_samples window_size hop_size) :
    (transform logfn stftVal melW window_size hop_size mel_bins
        (pad_truncate_sequence audio total_samples)).length =
      stftNumFrames total_samples window_size hop_size ∧
    frames_num ≤ (transform logfn stftVal melW window_size hop_size
      mel_bins (pad_truncate_sequence audio total_samples)).length ∧
    ((transform logfn stftVal melW window_size hop_size mel_bins
        (pad_truncate_sequence audio total_samples)).take
      frames_num).length = frames_num ∧
    (∀ row ∈ (transform logfn stftVal melW window_size hop_size mel_bins
        (pad_truncate_sequence audio total_samples)).take frames_num,
      row.length = mel_bins) := by
  have hlen2 : (transform logfn stftVal melW window_size hop_size mel_bins
      (pad_truncate_sequence audio total_samples)).length =
      stftNumFrames total_samples window_size hop_size := by
    rw [transform, List.length_map, List.length_range,
      pad_truncate_sequence_length]
  refine ⟨hlen2, hlen2 ▸ hlen, ?_, ?_⟩
  · rw [List.length_take, hlen2]
    omega
  · intro row hrow
    have hmem := List.mem_of_mem_take hrow
    obtain ⟨t, _, rfl⟩ := List.mem_map.mp hmem
    simp

/-- Witness for the C7 theorem at DCASE2019-style constants:
`total_samples = 320000` (10 s at 32 kHz), `window_size = 1024`,
`hop_size = 500`, `frames_num = 640`, `mel_bins = 64`; the STFT then
yields `641 ≥ 640` frames. -/
theorem transform_shape_witness :
    640 ≤ stftNumFrames 320000 1024 500 ∧
    ((transform id (fun _ _ _ => (0, 0)) (fun _ _ => 0) 1024 500 64
        (pad_truncate_sequence [] 320000)).take 640).length = 640 :=
  ⟨by decide,
    (transform_shape id (fun _ _ _ => (0, 0)) (fun _ _ => 0) 1024 500 64
      640 320000 [] (by decide)).2.2.1⟩

/-! ### Claim C1 -/

theorem map_getD {α β : Type} (f : α → β) {l : List α} {i : ℕ}
    (hi : i < l.length) (d : β) (d2 : α) :
    (l.map f).getD i d = f (l.getD i d2) := by
  rw [List.getD_eq_getElem _ _ (by simpa using hi),
    List.getD_eq_getElem _ _ hi]
  simp

theorem insertSorted_length (s : String) :
    ∀ l : List String, (insertSorted s l).length = l.length + 1
  | [] => rfl
  | t :: ts => by
    rw [insertSorted]
    split_ifs
    · rfl
    · simp [insertSorted_length s ts]

theorem pysort_length : ∀ l : List String, (pysort l).length = l.length
  | [] => rfl
  | x :: xs => by
    show (insertSorted x (pysort xs)).length = xs.length + 1
    rw [insertSorted_length, pysort_length xs]

theorem buildRows_some (f : String → Option ItemRow) :
    ∀ (names : List String) (rows : List ItemRow),
      buildRows f names = some rows →
      rows.length = names.length ∧
      ∀ i, i < names.length →
        f (names.getD i "") = some (rows.getD i default)
  | [], rows, h => by
    cases h
    exact ⟨rfl, fun i hi => by simp at hi⟩
  | n :: ns, rows, h => by
    rw [buildRows] at h
    cases hn : f n with
    | none => rw [hn] at h; cases h
    | some r =>
      rw [hn] at h
      cases hns : buildRows f ns with
      | none => rw [hns] at h; cases h
      | some rs =>
        rw [hns] at h
        cases h
        obtain ⟨hlen, hcorr⟩ := buildRows_some f ns rs hns
        refine ⟨by simp [hlen], ?_⟩
        intro i hi
        cases i with
        | zero => simpa using hn
        | succ j =>
          have hj : j < ns.length := by simpa using hi
          simpa using hcorr j hj

/-- Claim C1, counterexample: a run over the two item names
`["a.wav", "a.b.wav"]`.  The builder sorts the audio names
(`["a.b.wav", "a.wav"]`) but sorts the `.wav → .avi` renamed list
*after* renaming (`["a.avi", "a.b.avi"]`), and renaming does not commute
with lexicographic sorting: row 0 holds `audio_name = "a.b.wav"` (item
`a.b.wav`, whose feature/video rows are extracted from it) next to
`video_name = "a.avi"` — the video file of the *other* item `a.wav`
(the video of item `a.b.wav` is `"a.b.avi"`).  So not all co-indexed
datasets of row 0 refer to the same corpus item. -/
theorem buildArchive_video_name_misaligned :
    (buildArchive cfgTiny id (fun _ _ _ => (0, 0)) (fun _ _ => 0)
        corpSwap).map
      (fun a => (a.audio_name.getD 0 "", a.video_name.getD 0 "")) =
      some ("a.b.wav", "a.avi") ∧
    pyReplace "a.b.wav" ".wav" ".avi" = "a.b.avi" ∧
    "a.avi" ≠ "a.b.avi" := by
  exact ⟨by decide, by decide, by decide⟩

/-- Claim C1 (amended): after a successful Archive Builder run over `N`
item names, every produced dataset has leading dimension exactly `N`
(including `weak_target`/`strong_target` when the corresponding flag is
set), and for every row `i`, `audio_name[i]`, `feature[i]`,
`video_feature[i]` and the target rows all refer to the same corpus item
(row `i` is exactly the output of the per-item processing of the `i`-th
sorted name); `video_name[i]` refers to that same item if and only if the
`.wav → .avi` renaming preserves the sorted order of the name list (the
hypothesis `horder`), which the counterexample shows can fail. -/
theorem buildArchive_aligned (cfg : RunConfig) (logfn : ℚ → ℚ)
    (stftVal : List ℚ → ℕ → ℕ → ℚ × ℚ) (melW : ℕ → ℕ → ℚ) (c : Corpus)
    (horder : pysort (c.names.map (fun k => pyReplace k ".wav" ".avi")) =
      (pysort c.names).map (fun k => pyReplace k ".wav" ".avi"))
    (A : ArchiveH5) (hA : buildArchive cfg logfn stftVal melW c = some A) :
    A.audio_name.length = c.names.length ∧
    A.video_name.length = c.names.length ∧
    A.feature.length = c.names.length ∧
    A.video_feature.length = c.names.length ∧
    (c.has_weak = true → ∃ w, A.weak_target = some w ∧
      w.length = c.names.length) ∧
    (c.has_strong = true → ∃ s, A.strong_target = some s ∧
      s.length = c.names.length) ∧
    (∀ i, i < c.names.length →
      A.video_name.getD i "" =
        pyReplace (A.audio_name.getD i "") ".wav" ".avi" ∧
      ∃ r, processItem cfg logfn stftVal melW c (A.audio_name.getD i "") =
          some r ∧
        A.feature.getD i [] = r.feature ∧
        A.video_feature.getD i default = r.video_feature ∧
        (∀ w, A.weak_target = some w → w.getD i [] = r.weak.getD []) ∧
        (∀ s, A.strong_target = some s → s.getD i [] = r.strong.getD [])) := by
  rw [buildArchive] at hA
  cases hbr : buildRows (processItem cfg logfn stftVal melW c)
      (pysort c.names) with
  | none => rw [hbr] at hA; cases hA
  | some rows =>
    rw [hbr] at hA
    cases hA
    obtain ⟨hlen, hcorr⟩ := buildRows_some _ _ _ hbr
    have hplen : (pysort c.names).length = c.names.length :=
      pysort_length c.names
    have hrows : rows.length = c.names.length := by rw [hlen, hplen]
    refine ⟨hplen, ?_, by simp [hrows], by simp [hrows], ?_, ?_, ?_⟩
    · rw [horder, List.length_map, hplen]
    · intro hw
      refine ⟨rows.map (fun r => r.weak.getD []), ?_, by simp [hrows]⟩
      simp [hw]
    · intro hs
      refine ⟨rows.map (fun r => r.strong.getD []), ?_, by simp [hrows]⟩
      simp [hs]
    · intro i hi
      have hi2 : i < (pysort c.names).length := by rw [hplen]; exact hi
      have hi3 : i < rows.length := by rw [hrows]; exact hi
      constructor
      · rw [horder, map_getD _ hi2 "" ""]
      · refine ⟨rows.getD i default, hcorr i (by rw [hplen]; exact hi),
          map_getD _ hi3 [] default, map_getD _ hi3 default default,
          ?_, ?_⟩
        · intro w hw
          cases hcw : c.has_weak with
          | false => simp [hcw] at hw
          | true =>
            simp only [hcw, if_true] at hw
            cases hw
            exact map_getD _ hi3 [] default
        · intro s hs
          cases hcs : c.has_strong with
          | false => simp [hcs] at hs
          | true =>
            simp only [hcs, if_true] at hs
            cases hs
            exact map_getD _ hi3 [] default

/-- Witness for the amended C1 theorem: a successful two-item run over
`["a.wav", "b.wav"]`, names for which the renaming preserves sorted
order. -/
theorem buildArchive_aligned_witness :
    (pysort (corpGood.names.map (fun k => pyReplace k ".wav" ".avi")) =
      (pysort corpGood.names).map (fun k => pyReplace k ".wav" ".avi")) ∧
    ∃ A, buildArchive cfgTiny id (fun _ _ _ => (0, 0)) (fun _ _ => 0)
        corpGood = some A ∧
      A.audio_name.length = 2 ∧ A.feature.length = 2 := by
  have hs : (buildArchive cfgTiny id (fun _ _ _ => (0, 0)) (fun _ _ => 0)
      corpGood).isSome = true := by decide
  have hA := (Option.some_get hs).symm
  have hmain := buildArchive_aligned cfgTiny id (fun _ _ _ => (0, 0))
    (fun _ _ => 0) corpGood (by decide) _ hA
  exact ⟨by decide, _, hA, hmain.1, hmain.2.2.1⟩

/-! ### Claim C8 -/

theorem headD_map_of_ne_nil {α β : Type} (f : α → β) {l : List α}
    (h : l ≠ []) (d : β) (d2 : α) : (l.map f).headD d = f (l.headD d2) := by
  cases l with
  | nil => exact absurd rfl h
  | cons a as => rfl

theorem cst_mean_length (sq : ℚ → ℚ) (x : List (List ℚ)) :
    (calculate_scalar_of_tensor sq x).1.length = (x.headD []).length := by
  simp [calculate_scalar_of_tensor]

theorem cst_std_length (sq : ℚ → ℚ) (x : List (List ℚ)) :
    (calculate_scalar_of_tensor sq x).2.length = (x.headD []).length := by
  simp [calculate_scalar_of_tensor]

/-- Claim C8: the Scalar Reducer is deterministic — its output is a pure
function of the archive's `feature` and `video_feature` datasets alone,
so two runs over the same completed archive produce identical mean/std
arrays — and each mean/std array has the shape (element count) of one
feature row of its modality, not a single scalar.  (Rows are flattened to
vectors in the embedding; element-wise statistics are unchanged by
flattening.) -/
theorem calcScalarRecord_deterministic_shape (sq : ℚ → ℚ)
    (a b : ArchiveH5) :
    (a.feature = b.feature → a.video_feature = b.video_feature →
      calcScalarRecord sq a = calcScalarRecord sq b) ∧
    (a.feature ≠ [] →
      (calcScalarRecord sq a).audio_mean.length =
        (flatRow2 (a.feature.headD [])).length ∧
      (calcScalarRecord sq a).audio_std.length =
        (flatRow2 (a.feature.headD [])).length) ∧
    (a.video_feature ≠ [] →
      (calcScalarRecord sq a).video_mean.length =
        (ndFlatten (a.video_feature.headD default)).length ∧
      (calcScalarRecord sq a).video_std.length =
        (ndFlatten (a.video_feature.headD default)).length) := by
  refine ⟨?_, ?_, ?_⟩
  · intro h1 h2
    rw [calcScalarRecord, calcScalarRecord, h1, h2]
  · intro hne
    constructor
    · rw [calcScalarRecord]
      show (calculate_scalar_of_tensor sq (a.feature.map flatRow2)).1.length
        = _
      rw [cst_mean_length, headD_map_of_ne_nil flatRow2 hne [] []]
    · rw [calcScalarRecord]
      show (calculate_scalar_of_tensor sq (a.feature.map flatRow2)).2.length
        = _
      rw [cst_std_length, headD_map_of_ne_nil flatRow2 hne [] []]
  · intro hne
    constructor
    · rw [calcScalarRecord]
      show (calculate_scalar_of_tensor sq
        (a.video_feature.map ndFlatten)).1.length = _
      rw [cst_mean_length, headD_map_of_ne_nil ndFlatten hne [] default]
    · rw [calcScalarRecord]
      show (calculate_scalar_of_tensor sq
        (a.video_feature.map ndFlatten)).2.length = _
      rw [cst_std_length, headD_map_of_ne_nil ndFlatten hne [] default]

/-- Witness for the C8 theorem at a concrete one-item archive. -/
theorem calcScalarRecord_deterministic_shape_witness :
    (archTiny.feature = archTiny.feature) ∧
    (archTiny.video_feature = archTiny.video_feature) ∧
    (archTiny.feature ≠ []) ∧ (archTiny.video_feature ≠ []) ∧
    (calcScalarRecord id archTiny = calcScalarRecord id archTiny) ∧
    (calcScalarRecord id archTiny).audio_mean.length =
      (flatRow2 (archTiny.feature.headD [])).length ∧
    (calcScalarRecord id archTiny).video_mean.length =
      (ndFlatten (archTiny.video_feature.headD default)).length := by
  have h := calcScalarRecord_deterministic_shape id archTiny archTiny
  refine ⟨rfl, rfl, by decide, ?_, h.1 rfl rfl, (h.2.1 (by decide)).1,
    (h.2.2 ?_).1⟩
  · intro hcon
    exact absurd (congrArg List.length hcon) (by decide)
  · intro hcon
    exact absurd (congrArg List.length hcon) (by decide)

/-! ### Claim C9 -/

/-- Claim C9: when scalar computation is requested for any data split
other than `'train_synthetic'`, `calculate_scalar` raises the
`AssertionError` (with the source's message) before performing any file
I/O: the assertion stands before every path computation, folder creation
and archive open, and in the embedding the error result carries no file
operation — no archive is opened and no scalar file is created or
modified. -/
theorem calculate_scalar_fails_fast (sq : ℚ → ℚ)
    (relName : String → String) (archiveAt : String → ArchiveH5)
    (data_type : String) (mini_data : Bool)
    (frames_per_second mel_bins : ℕ)
    (h : data_type ≠ "train_synthetic") :
    calculate_scalar sq relName archiveAt data_type mini_data
        frames_per_second mel_bins =
      Except.error
        "We only support using train_weak data to calculate scalar. " := by
  rw [calculate_scalar, if_neg h]

/-- Witness for the C9 theorem at the split `'validation'`. -/
theorem calculate_scalar_fails_fast_witness :
    ("validation" : String) ≠ "train_synthetic" ∧
    calculate_scalar id id (fun _ => archTiny) "validation" false 50 64 =
      Except.error
        "We only support using train_weak data to calculate scalar. " :=
  ⟨by decide,
    calculate_scalar_fails_fast id id (fun _ => archTiny) "validation"
      false 50 64 (by decide)⟩

end AVF
